import Mathlib

/-
Verification of the block index and range-query service in
src/rpc/jsonrpc_server.go (package rpc of nodekit-seq).

The server state (struct JSONRPCServer) holds four structures:
  headers            : map from block id to header        (Go map)
  blocksWithValidTxs : map from block id to SequencerBlock (Go map)
  idsByHeight        : btree.Map from height to block id   (ordered)
  blocks             : btree.Map from timestamp to height  (ordered)
Go maps and btree maps are both modelled as association lists; the btree
maps are kept sorted by key so that an ascending scan is the list order.
Block ids (ids.ID) are modelled as Nat, with 0 standing for the all-zero
ids.Empty value that a zero BlockInfo carries.  uint64 arithmetic is made
explicit where it matters (sub64 below); timestamps (int64) are Int.
A Go nil-pointer dereference is modelled by the panic outcome, a returned
non-nil error by the err outcome.
-/

namespace NodekitSeq

/-- Association-list lookup: the model of map access and of btree Get. -/
def mapGet {α β : Type} [DecidableEq α] : List (α × β) → α → Option β
  | [], _ => none
  | (a, b) :: rest, k => if a = k then some b else mapGet rest k

/-- Ordered insert-or-replace: the model of map assignment and btree Set.
Keeps the list sorted by key, so ascending iteration is list order. -/
def mapSet {α β : Type} [LinearOrder α] : List (α × β) → α → β → List (α × β)
  | [], k, v => [(k, v)]
  | (a, b) :: rest, k, v =>
    if k < a then (k, v) :: (a, b) :: rest
    else if k = a then (k, v) :: rest
    else (a, b) :: mapSet rest k v

/-- Go uint64 subtraction: wraps modulo 2 to the 64. -/
def sub64 (a b : Nat) : Nat := (a + 2 ^ 64 - b % 2 ^ 64) % 2 ^ 64

/-- Action of a transaction: either the sequencer-message action
(actions.SequencerMsg, with ChainId and Data byte slices) or any other
registered action kind. -/
inductive TxAction where
  | sequencerMsg (ChainId : List Nat) (Data : List Nat) : TxAction
  | other : TxAction
deriving DecidableEq

/-- A transaction as the ingestion loop sees it: its id (tx.ID) and its
typed action (tx.Action). -/
structure Tx where
  id : Nat
  Action : TxAction
deriving DecidableEq

/-- One entry of the execution-result list: the success flag consulted by
the ingestion loop. -/
structure TxResult where
  success : Bool
deriving DecidableEq

/-- The retained header fields of chain.StatefulBlock that the server
reads: height, timestamp and the raw transaction list. -/
structure BlockHeader where
  Hght : Nat
  Tmstmp : Int
  Txs : List Tx
deriving DecidableEq

/-- The block the engine hands to AcceptBlock (chain.StatelessBlock):
the fields the server copies into the SequencerBlock plus the
transaction list it scans. -/
structure StatelessBlock where
  StateRoot : Nat
  Prnt : Nat
  Tmstmp : Int
  Hght : Nat
  Txs : List Tx
deriving DecidableEq

/-- types.SEQTransaction: one namespaced record built at ingestion. -/
structure SEQTransaction where
  Namespace : String
  Tx_id : Nat
  Transaction : List Nat
  Index : Nat
deriving DecidableEq

/-- types.SequencerBlock: header fields plus the namespace partition. -/
structure SequencerBlock where
  StateRoot : Nat
  Prnt : Nat
  Tmstmp : Int
  Hght : Nat
  Txs : List (String × List SEQTransaction)
deriving DecidableEq

/-- The JSONRPCServer state: the four index structures. -/
structure ServerState where
  headers : List (Nat × BlockHeader)
  blocksWithValidTxs : List (Nat × SequencerBlock)
  idsByHeight : List (Nat × Nat)
  blocks : List (Int × Nat)
deriving DecidableEq

/-- NewJSONRPCServer: all four structures start empty. -/
def emptyState : ServerState := ⟨[], [], [], []⟩

/-- BlockInfo carries one block id; the zero value (id 0 here, the
all-zero ids.Empty in Go) is the explicit empty marker. -/
structure BlockInfo where
  BlockId : Nat
deriving DecidableEq

/-- BlockHeadersResponse: the window query result. -/
structure BlockHeadersResponse where
  From : Nat
  Blocks : List BlockInfo
  Prev : BlockInfo
  Next : BlockInfo
deriving DecidableEq

/-- TransactionResponse: raw transactions of one block. -/
structure TransactionResponse where
  Txs : List Tx
  BlockId : Nat
deriving DecidableEq

/-- SEQTransactionResponse: namespaced transactions of one block. -/
structure SEQTransactionResponse where
  Txs : List SEQTransaction
  BlockId : Nat
deriving DecidableEq

/-- Outcome of a handler call as the caller observes it: a runtime panic
(nil-pointer dereference), a returned error, or a normal return carrying
the caller-visible value. -/
inductive Outcome (α : Type) where
  | panic : Outcome α
  | err : Nat → Outcome α
  | ok : α → Outcome α
deriving DecidableEq

/-- The zero-valued reply object the RPC layer hands to a handler. -/
def zeroHeadersReply : BlockHeadersResponse := ⟨0, [], ⟨0⟩, ⟨0⟩⟩

/-- The body of the idsByHeight.Ascend callback shared by the three
header queries (lines 225-252, 298-316, 353-371): for each visited
(heightKey, id) pair in ascending key order, look the header up in the
headers map (a nil dereference if absent), append the id to blocks when
the stored height equals the scan key, and stop with Next set to the
current id as soon as the stored timestamp exceeds the end bound.  The
append happens before the timestamp test, exactly as in the source. -/
def ascendLoop (headers : List (Nat × BlockHeader)) (endB : Int) :
    List (Nat × Nat) → List BlockInfo → Option (List BlockInfo × BlockInfo)
  | [], acc => some (acc, ⟨0⟩)
  | (hk, idv) :: rest, acc =>
    match mapGet headers idv with
    | none => none
    | some blk =>
      let acc2 := if blk.Hght = hk then acc ++ [⟨idv⟩] else acc
      if endB < blk.Tmstmp then some (acc2, ⟨idv⟩)
      else ascendLoop headers endB rest acc2

/-- The entries an Ascend call starting at pivot visits: exactly the
index entries with key at least pivot, in ascending order. -/
def entriesFrom (m : List (Nat × Nat)) (pivot : Nat) : List (Nat × Nat) :=
  m.filter (fun p => decide (pivot ≤ p.1))

/-- The Prev field computation (lines 212-219): look firstBlock - 1 up
in idsByHeight with Go uint64 subtraction (so height 0 probes key
2 to the 64 minus 1), returning the zero BlockInfo when absent. -/
def prevInfo (s : ServerState) (firstBlock : Nat) : BlockInfo :=
  match mapGet s.idsByHeight (sub64 firstBlock 1) with
  | some pid => ⟨pid⟩
  | none => ⟨0⟩

/-- The local result value res each header query builds (lines 212-254
and their copies): From, the scanned Blocks, Prev and Next. -/
def windowRes (s : ServerState) (firstBlock : Nat) (endB : Int) :
    Outcome BlockHeadersResponse :=
  match ascendLoop s.headers endB (entriesFrom s.idsByHeight firstBlock) [] with
  | none => Outcome.panic
  | some pr => Outcome.ok ⟨firstBlock, pr.1, prevInfo s firstBlock, pr.2⟩

/-- getBlockHeadersByHeight, internal result: the res value computed at
line 254 from the requested height and end bound. -/
def getBlockHeadersByHeightRes (s : ServerState) (height : Nat) (endB : Int) :
    Outcome BlockHeadersResponse :=
  windowRes s height endB

/-- getBlockHeadersByHeight as the caller observes it: the handler
computes res, then executes reply = amp-res (line 256), which rebinds
the local pointer variable only; the caller-allocated reply object is
never written, so a normal return leaves it unchanged. -/
def getBlockHeadersByHeight (s : ServerState) (height : Nat) (endB : Int)
    (reply : BlockHeadersResponse) : Outcome BlockHeadersResponse :=
  match windowRes s height endB with
  | Outcome.panic => Outcome.panic
  | Outcome.err e => Outcome.err e
  | Outcome.ok _ => Outcome.ok reply

/-- getBlockHeadersID (lines 261-325) as the caller observes it.  parse
models ids.FromString.  A non-empty argument is parsed (error returned
on failure), the header map is indexed (nil dereference when the id is
absent, since block.Hght is read from a nil pointer), and the window is
computed from the found height; an empty argument returns nil at line
282 before any window computation.  In every normal return the reply
object is left unchanged (line 320 rebinds a local). -/
def getBlockHeadersID (parse : String → Except Nat Nat) (s : ServerState)
    (idArg : String) (endB : Int) (reply : BlockHeadersResponse) :
    Outcome BlockHeadersResponse :=
  if idArg ≠ "" then
    match parse idArg with
    | Except.error e => Outcome.err e
    | Except.ok idv =>
      match mapGet s.headers idv with
      | none => Outcome.panic
      | some block =>
        match windowRes s block.Hght endB with
        | Outcome.panic => Outcome.panic
        | Outcome.err e => Outcome.err e
        | Outcome.ok _ => Outcome.ok reply
  else
    Outcome.ok reply

/-- getBlockHeadersByStart, internal result (lines 328-382): firstBlock
is the height found by an exact Get on the timestamp index, defaulting
to the zero value of the uint64 variable when no entry matches; the
window is then computed exactly as in the by-height query. -/
def getBlockHeadersByStartRes (s : ServerState) (start : Int) (endB : Int) :
    Outcome BlockHeadersResponse :=
  let firstBlock : Nat :=
    match mapGet s.blocks start with
    | some h => h
    | none => 0
  windowRes s firstBlock endB

/-- getBlockTransactions (lines 384-404) as the caller observes it: a
non-empty id argument returns nil immediately (line 388-390, leaving the
reply untouched); only an empty argument reaches the parse, whose error
is returned; on a successful parse the headers map is indexed (nil
dereference when absent) and the computed res is assigned to a local
pointer copy (line 401), leaving the reply unchanged. -/
def getBlockTransactions (parse : String → Except Nat Nat) (s : ServerState)
    (idArg : String) (reply : TransactionResponse) : Outcome TransactionResponse :=
  if idArg ≠ "" then
    Outcome.ok reply
  else
    match parse idArg with
    | Except.error e => Outcome.err e
    | Except.ok idv =>
      match mapGet s.headers idv with
      | none => Outcome.panic
      | some _block => Outcome.ok reply

/-- getBlockTransactionsByNamespace (lines 406-424) as the caller
observes it: same inverted emptiness guard, parse, blocksWithValidTxs
indexing (nil dereference when absent, since block.Txs is read), and the
same discarded local assignment at line 421. -/
def getBlockTransactionsByNamespace (parse : String → Except Nat Nat)
    (s : ServerState) (idArg : String) (_nspace : String)
    (reply : SEQTransactionResponse) : Outcome SEQTransactionResponse :=
  if idArg ≠ "" then
    Outcome.ok reply
  else
    match parse idArg with
    | Except.error e => Outcome.err e
    | Except.ok idv =>
      match mapGet s.blocksWithValidTxs idv with
      | none => Outcome.panic
      | some _block => Outcome.ok reply

/-- True exactly on the err outcome. -/
def isErr {α : Type} : Outcome α → Bool
  | Outcome.err _ => true
  | _ => false

/-- Go map indexing of a namespace partition: block.Txs of a namespace
key, the nil (empty) slice when the key is absent. -/
def nsLookup (m : List (String × List SEQTransaction)) (ns : String) :
    List SEQTransaction :=
  (mapGet m ns).getD []

/-- Lowercase hex digit of a value below 16, as encoding/hex emits. -/
def hexDigit (n : Nat) : Char :=
  if n < 10 then Char.ofNat (48 + n) else Char.ofNat (87 + n)

/-- Two lowercase hex characters of one byte. -/
def hexEncodeByte (b : Nat) : String :=
  String.mk [hexDigit (b / 16 % 16), hexDigit (b % 16)]

/-- hex.EncodeToString: lowercase hex of a byte slice. -/
def hexEncodeToString (bs : List Nat) : String :=
  String.join (bs.map hexEncodeByte)

/-- The seq_txs update of one qualifying transaction (lines 452-461):
allocate the namespace slice if this is its first record, then append.
Appending at an existing key keeps key order, so lookups are unchanged
for other keys. -/
def addSeqTx (m : List (String × List SEQTransaction)) (key : String)
    (t : SEQTransaction) : List (String × List SEQTransaction) :=
  match m with
  | [] => [(key, [t])]
  | (k, l) :: rest =>
    if k = key then (k, l ++ [t]) :: rest
    else (k, l) :: addSeqTx rest key t

/-- The ingestion loop over blk.Txs (lines 445-465), carrying the Go
loop index i: results is indexed at i (an index-out-of-range panic,
modelled as none, when too short); a transaction whose result succeeded
and whose action is SequencerMsg contributes a SEQTransaction record
under the hex encoding of its ChainId. -/
def buildSeqTxs (results : List TxResult) :
    Nat → List Tx → List (String × List SEQTransaction) →
    Option (List (String × List SEQTransaction))
  | _, [], acc => some acc
  | i, tx :: rest, acc =>
    match results[i]? with
    | none => none
    | some result =>
      if result.success then
        match tx.Action with
        | TxAction.sequencerMsg cid dat =>
          buildSeqTxs results (i + 1) rest
            (addSeqTx acc (hexEncodeToString cid)
              ⟨hexEncodeToString cid, tx.id, dat, i⟩)
        | TxAction.other => buildSeqTxs results (i + 1) rest acc
      else buildSeqTxs results (i + 1) rest acc

/-- The state mutation of AcceptBlock after a non-nil id was obtained
(lines 437-476): store the unpacked header, the height index entry and
the timestamp index entry, then build the partition from the stateless
block and store the SequencerBlock (whose header fields are copied from
blk).  none models the panic when results is shorter than blk.Txs. -/
def acceptCore (s : ServerState) (blk : StatelessBlock) (block : BlockHeader)
    (results : List TxResult) (idv : Nat) : Option ServerState :=
  let s1 : ServerState := { s with headers := mapSet s.headers idv block }
  let s2 : ServerState :=
    { s1 with idsByHeight := mapSet s1.idsByHeight block.Hght idv }
  let s3 : ServerState :=
    { s2 with blocks := mapSet s2.blocks block.Tmstmp block.Hght }
  match buildSeqTxs results 0 blk.Txs [] with
  | none => none
  | some seqTxs =>
    let sequencerBlock : SequencerBlock :=
      ⟨blk.StateRoot, blk.Prnt, blk.Tmstmp, blk.Hght, seqTxs⟩
    some { s3 with
      blocksWithValidTxs := mapSet s3.blocksWithValidTxs idv sequencerBlock }

/-- What rpc.UnpackBlockMessage hands back in Go multiple-return style:
the decoded header, the result list, the id pointer (none models nil)
and the error value.  The source never inspects the error field. -/
structure UnpackOut where
  block : BlockHeader
  results : List TxResult
  idOut : Option Nat
  errOut : Option Nat

/-- Outcome of one AcceptBlock call. -/
inductive AcceptOutcome where
  | panic : AcceptOutcome
  | err : Nat → AcceptOutcome
  | ok : ServerState → AcceptOutcome

/-- AcceptBlock (lines 426-479).  packOut models the PackBlockMessage
return: its error is checked and returned (lines 430-432).  unpack
models UnpackBlockMessage on the packed message: its err return value is
bound at line 435 and never checked; the code immediately dereferences
the returned id pointer (panic when nil) and mutates the four
structures. -/
def AcceptBlock (s : ServerState) (blk : StatelessBlock)
    (packOut : Except Nat Nat) (unpack : Nat → UnpackOut) : AcceptOutcome :=
  match packOut with
  | Except.error e => AcceptOutcome.err e
  | Except.ok msg =>
    let u := unpack msg
    match u.idOut with
    | none => AcceptOutcome.panic
    | some idv =>
      match acceptCore s blk u.block u.results idv with
      | none => AcceptOutcome.panic
      | some s2 => AcceptOutcome.ok s2

/-- One ingestion call: the block plus the behavior of the external
pack and unpack collaborators on it. -/
structure IngestCall where
  blk : StatelessBlock
  packOut : Except Nat Nat
  unpack : Nat → UnpackOut

/-- A sequence of AcceptBlock calls from a given state; some only when
every call returns normally. -/
def ingestAll : ServerState → List IngestCall → Option ServerState
  | s, [] => some s
  | s, c :: rest =>
    match AcceptBlock s c.blk c.packOut c.unpack with
    | AcceptOutcome.ok s2 => ingestAll s2 rest
    | AcceptOutcome.panic => none
    | AcceptOutcome.err _ => none

/-- Every id the height index holds has a stored header: the two-step
lookup height to id to header is total on indexed heights. -/
def HeaderTotal (s : ServerState) : Prop :=
  ∀ hgt idv, mapGet s.idsByHeight hgt = some idv →
    (mapGet s.headers idv).isSome = true

/-- Boolean consistency of one height-index entry: the stored header of
its id exists and records exactly the key height. -/
def HeaderMatchB (headers : List (Nat × BlockHeader)) (p : Nat × Nat) : Bool :=
  match mapGet headers p.2 with
  | some b => b.Hght == p.1
  | none => false

/-- The timestamp the scan reads for one height-index entry. -/
def tsOf (headers : List (Nat × BlockHeader)) (p : Nat × Nat) : Int :=
  match mapGet headers p.2 with
  | some b => b.Tmstmp
  | none => 0

/-- What the scan actually returns, stated as a recursion over the
visited entries: every entry of the leading run with timestamp at most
the bound is included; the first entry beyond the bound is included as
well and also becomes Next, and the scan stops there. -/
def specScanIncl (headers : List (Nat × BlockHeader)) (endB : Int) :
    List (Nat × Nat) → List BlockInfo × BlockInfo
  | [] => ([], ⟨0⟩)
  | p :: rest =>
    if tsOf headers p ≤ endB then
      (⟨p.2⟩ :: (specScanIncl headers endB rest).1,
        (specScanIncl headers endB rest).2)
    else ([⟨p.2⟩], ⟨p.2⟩)

/-- The namespace-partition selector, following the claim: a transaction
qualifies when its execution succeeded and its action is the
sequencer-message kind with the queried namespace as the hex encoding of
its channel id; the record carries the transaction id, the payload and
the original position. -/
def specSel (ns : String) (pr : Nat × (Tx × TxResult)) : Option SEQTransaction :=
  if pr.2.2.success then
    match pr.2.1.Action with
    | TxAction.sequencerMsg cid dat =>
      if hexEncodeToString cid = ns then
        some ⟨ns, pr.2.1.id, dat, pr.1⟩
      else none
    | TxAction.other => none
  else none

/-- The claimed content of one namespace of the partition: the qualifying
transactions of the block in original order, paired positionally with
their results. -/
def specNsRecords (txs : List Tx) (results : List TxResult) (ns : String) :
    List SEQTransaction :=
  (List.enum (txs.zip results)).filterMap (specSel ns)

/-- Index-carrying form of specNsRecords used to relate it to the
ingestion loop. -/
def specFrom (results : List TxResult) :
    Nat → List Tx → String → List SEQTransaction
  | _, [], _ => []
  | i, tx :: rest, ns =>
    match results[i]? with
    | none => []
    | some result =>
      if result.success then
        match tx.Action with
        | TxAction.sequencerMsg cid dat =>
          if hexEncodeToString cid = ns then
            ⟨ns, tx.id, dat, i⟩ :: specFrom results (i + 1) rest ns
          else specFrom results (i + 1) rest ns
        | TxAction.other => specFrom results (i + 1) rest ns
      else specFrom results (i + 1) rest ns

/-
Concrete instances used by the closed theorems below.  Block ids are
small distinct numbers; heights and timestamps follow each scenario.
-/

/-- Two-block state: heights 0 and 1, timestamps 100 and 200, ids 1, 2. -/
def sC1 : ServerState :=
  ⟨[(1, ⟨0, 100, []⟩), (2, ⟨1, 200, []⟩)], [],
    [(0, 1), (1, 2)], [(100, 0), (200, 1)]⟩

/-- The response the by-height query computes on sC1 at height 0 with
end bound 150. -/
def rC1 : BlockHeadersResponse := ⟨0, [⟨1⟩, ⟨2⟩], ⟨0⟩, ⟨2⟩⟩

/-- One-block state: id 4 at height 5, timestamp 100. -/
def sC2 : ServerState := ⟨[(4, ⟨5, 100, []⟩)], [], [(5, 4)], [(100, 5)]⟩

def txC3 : Tx := ⟨11, TxAction.other⟩

def bC3 : BlockHeader := ⟨2, 70, [txC3]⟩

def stC3 : SEQTransaction := ⟨"0a", 11, [5], 0⟩

def sqC3 : SequencerBlock := ⟨0, 0, 70, 2, [("0a", [stC3])]⟩

/-- One-block state holding a transaction and a namespace record. -/
def sC3 : ServerState := ⟨[(6, bC3)], [(6, sqC3)], [(2, 6)], [(70, 2)]⟩

/-- An ids.FromString model: the string "B6" parses to id 6, anything
else fails. -/
def parseC3 : String → Except Nat Nat :=
  fun a => if a = "B6" then Except.ok 6 else Except.error 1

/-- One-block state: id 3 at height 0. -/
def sC4 : ServerState := ⟨[(3, ⟨0, 10, []⟩)], [], [(0, 3)], [(10, 0)]⟩

/-- An ids.FromString model: the string "GOOD" parses to id 77 (which
sC4 does not hold), anything else fails. -/
def parseC4 : String → Except Nat Nat :=
  fun a => if a = "GOOD" then Except.ok 77 else Except.error 2

def blkC5 : StatelessBlock := ⟨0, 0, 10, 1, []⟩

/-- An unpack behavior that fails: error 7 together with a nil id, the
conventional Go error return. -/
def unpackNilC5 : Nat → UnpackOut := fun _ => ⟨⟨1, 10, []⟩, [], none, some 7⟩

/-- An unpack behavior that reports error 7 but returns a non-nil id. -/
def unpackErrC5 : Nat → UnpackOut := fun _ => ⟨⟨1, 10, []⟩, [], some 8, some 7⟩

/-- The state AcceptBlock commits from empty under unpackErrC5. -/
def sC5 : ServerState :=
  ⟨[(8, ⟨1, 10, []⟩)], [(8, ⟨0, 0, 10, 1, []⟩)], [(1, 8)], [(10, 1)]⟩

def blkC7 : StatelessBlock := ⟨0, 0, 50, 18446744073709551615, []⟩

def bC7 : BlockHeader := ⟨18446744073709551615, 50, []⟩

/-- The state a single AcceptBlock of a block at the maximal uint64
height 18446744073709551615 produces from empty. -/
def sC7 : ServerState :=
  ⟨[(9, bC7)], [(9, ⟨0, 0, 50, 18446744073709551615, []⟩)],
    [(18446744073709551615, 9)], [(50, 18446744073709551615)]⟩

/-- Scenario state for the amended window theorem: heights 0, 1, 2 with
timestamps 100, 150, 220 and ids 31, 32, 33. -/
def sW1 : ServerState :=
  ⟨[(31, ⟨0, 100, []⟩), (32, ⟨1, 150, []⟩), (33, ⟨2, 220, []⟩)], [],
    [(0, 31), (1, 32), (2, 33)], [(100, 0), (150, 1), (220, 2)]⟩

def txW0 : Tx := ⟨100, TxAction.sequencerMsg [10] [1]⟩

def txW1 : Tx := ⟨101, TxAction.other⟩

def txW2 : Tx := ⟨102, TxAction.sequencerMsg [10] [2]⟩

def txW3 : Tx := ⟨103, TxAction.sequencerMsg [11] [3]⟩

def txW4 : Tx := ⟨104, TxAction.sequencerMsg [11] [4]⟩

/-- A block with two successful sequencer messages on channel 0a, one
successful and one failed on channel 0b, and a successful plain
transaction. -/
def blkC6 : StatelessBlock := ⟨7, 3, 90, 4, [txW0, txW1, txW2, txW3, txW4]⟩

def bC6 : BlockHeader := ⟨4, 90, [txW0, txW1, txW2, txW3, txW4]⟩

def resC6 : List TxResult := [⟨true⟩, ⟨true⟩, ⟨true⟩, ⟨false⟩, ⟨true⟩]

/-- The SequencerBlock the ingestion of blkC6 stores. -/
def sbC6 : SequencerBlock :=
  ⟨7, 3, 90, 4,
    [("0a", [⟨"0a", 100, [1], 0⟩, ⟨"0a", 102, [2], 2⟩]),
     ("0b", [⟨"0b", 104, [4], 4⟩])]⟩

/-- The state ingesting blkC6 (id 12) from empty produces. -/
def sC6 : ServerState := ⟨[(12, bC6)], [(12, sbC6)], [(4, 12)], [(90, 4)]⟩

def blkW9 : StatelessBlock := ⟨0, 0, 30, 3, []⟩

/-- One successful ingestion call: block at height 3, id 21. -/
def callW9 : IngestCall :=
  ⟨blkW9, Except.ok 0, fun _ => ⟨⟨3, 30, []⟩, [], some 21, none⟩⟩

/-- The state callW9 produces from empty. -/
def sW9 : ServerState :=
  ⟨[(21, ⟨3, 30, []⟩)], [(21, ⟨0, 0, 30, 3, []⟩)], [(3, 21)], [(30, 3)]⟩

def blkC10a : StatelessBlock := ⟨0, 0, 40, 1, []⟩

def blkC10b : StatelessBlock := ⟨0, 0, 40, 2, []⟩

def bC10a : BlockHeader := ⟨1, 40, []⟩

def bC10b : BlockHeader := ⟨2, 40, []⟩

/-- State after ingesting bC10a (id 41, timestamp 40, height 1). -/
def sC10a : ServerState :=
  ⟨[(41, bC10a)], [(41, ⟨0, 0, 40, 1, []⟩)], [(1, 41)], [(40, 1)]⟩

/-- State after also ingesting bC10b (id 42, same timestamp 40,
height 2): the time index holds only the later entry. -/
def sC10b : ServerState :=
  ⟨[(41, bC10a), (42, bC10b)],
    [(41, ⟨0, 0, 40, 1, []⟩), (42, ⟨0, 0, 40, 2, []⟩)],
    [(1, 41), (2, 42)], [(40, 2)]⟩

/-
Helper lemmas about the map model.
-/

theorem mapGet_mapSet_self {α β : Type} [LinearOrder α]
    (m : List (α × β)) (k : α) (v : β) : mapGet (mapSet m k v) k = some v := by
  induction m with
  | nil => simp [mapSet, mapGet]
  | cons kv rest ih =>
    obtain ⟨a, b⟩ := kv
    by_cases h1 : k < a
    · simp [mapSet, h1, mapGet]
    · by_cases h2 : k = a
      · simp [mapSet, h1, h2, mapGet]
      · have h3 : ¬ a = k := fun he => h2 he.symm
        simp [mapSet, h1, h2, mapGet, h3, ih]

theorem mapGet_mapSet_ne {α β : Type} [LinearOrder α]
    (m : List (α × β)) (k q : α) (v : β) (hne : q ≠ k) :
    mapGet (mapSet m k v) q = mapGet m q := by
  have hkq : ¬ k = q := fun he => hne he.symm
  induction m with
  | nil => simp [mapSet, mapGet, hkq]
  | cons kv rest ih =>
    obtain ⟨a, b⟩ := kv
    by_cases h1 : k < a
    · simp [mapSet, h1, mapGet, hkq]
    · by_cases h2 : k = a
      · subst h2
        simp [mapSet, h1, mapGet, hkq]
      · simp only [mapSet, if_neg h1, if_neg h2, mapGet]
        by_cases h4 : a = q
        · simp [h4]
        · simp [h4, ih]

theorem nsLookup_addSeqTx (m : List (String × List SEQTransaction))
    (key ns : String) (t : SEQTransaction) :
    nsLookup (addSeqTx m key t) ns
      = if key = ns then nsLookup m ns ++ [t] else nsLookup m ns := by
  induction m with
  | nil => by_cases h : key = ns <;> simp [addSeqTx, nsLookup, mapGet, h]
  | cons kv rest ih =>
    obtain ⟨a, l⟩ := kv
    by_cases hk : a = key
    · subst hk
      by_cases hns : a = ns <;> simp [addSeqTx, nsLookup, mapGet, hns]
    · by_cases hns : a = ns
      · subst hns
        have : ¬ key = a := fun he => hk he.symm
        simp [addSeqTx, nsLookup, mapGet, hk, this]
      · simp only [addSeqTx, if_neg hk, nsLookup, mapGet, if_neg hns]
        exact ih

/-
Claim theorems.
-/

/-- Claim C1, counterexample: on the two-block state sC1 the by-height
query from height 0 with end bound 150 computes Blocks containing BOTH
ids 1 and 2, although the block with id 2 (timestamp 200, beyond the
bound) is the one populating Next.  The claim states that the first
block whose timestamp exceeds the end bound is excluded from Blocks;
the code appends it before testing the bound, so it is included. -/
theorem c1_counterexample :
    getBlockHeadersByHeightRes sC1 0 150 = Outcome.ok rC1 ∧
    rC1.Next = ⟨2⟩ ∧ rC1.Next ∈ rC1.Blocks := by
  refine ⟨by rfl, by rfl, by decide⟩

/-- Claim C2: the by-height handler computes the correct window result
internally, but the assignment reply = amp-res only rebinds a local
pointer, so the caller-visible reply object keeps its zero values.  On
sC2 (one block, id 4, height 5) the computed result has From 5 and one
block, while the caller still sees From 0 and no blocks. -/
theorem c2_reply_discarded :
    getBlockHeadersByHeight sC2 5 200 zeroHeadersReply
        = Outcome.ok zeroHeadersReply ∧
    getBlockHeadersByHeightRes sC2 5 200 = Outcome.ok ⟨5, [⟨4⟩], ⟨0⟩, ⟨0⟩⟩ ∧
    zeroHeadersReply.From = 0 ∧ zeroHeadersReply.Blocks = [] := by
  refine ⟨by rfl, by rfl, by rfl, by rfl⟩

/-- Claim C3: the state sC3 stores block id 6 with raw transaction list
[txC3] and namespace 0a list [stC3], and the string "B6" parses to id 6;
yet both transaction queries return the untouched empty reply for this
non-empty, well-formed, present identifier, because the emptiness guard
is inverted (a non-empty argument returns nil immediately). -/
theorem c3_tx_queries_return_untouched_reply :
    getBlockTransactions parseC3 sC3 "B6" ⟨[], 0⟩ = Outcome.ok ⟨[], 0⟩ ∧
    getBlockTransactionsByNamespace parseC3 sC3 "B6" "0a" ⟨[], 0⟩
        = Outcome.ok ⟨[], 0⟩ ∧
    parseC3 "B6" = Except.ok 6 ∧
    mapGet sC3.headers 6 = some bC3 ∧ bC3.Txs = [txC3] ∧
    nsLookup sqC3.Txs "0a" = [stC3] := by
  refine ⟨by rfl, by rfl, by rfl, by rfl, by rfl, by rfl⟩

/-- Claim C4: an empty identifier argument indeed returns the default
reply with no error; but a well-formed identifier ("GOOD", parsing to
id 77) that is absent from the header store makes the handler read
block.Hght from a nil pointer: a panic, not the claimed empty response. -/
theorem c4_absent_id_panics :
    getBlockHeadersID parseC4 sC4 "" 100 zeroHeadersReply
        = Outcome.ok zeroHeadersReply ∧
    parseC4 "GOOD" = Except.ok 77 ∧
    mapGet sC4.headers 77 = none ∧
    getBlockHeadersID parseC4 sC4 "GOOD" 100 zeroHeadersReply
        = Outcome.panic := by
  refine ⟨by rfl, by rfl, by rfl, by rfl⟩

/-- Claim C5: the unpack error of AcceptBlock is never checked.  When
unpack fails in the conventional Go way (error with nil id pointer) the
call panics dereferencing the id instead of returning the error; when
unpack reports an error but a non-nil id, the call ignores the error and
commits all four index structures (the height index afterwards maps
height 1 to id 8). -/
theorem c5_unpack_error_ignored :
    AcceptBlock emptyState blkC5 (Except.ok 0) unpackNilC5
        = AcceptOutcome.panic ∧
    AcceptBlock emptyState blkC5 (Except.ok 0) unpackErrC5
        = AcceptOutcome.ok sC5 ∧
    mapGet sC5.idsByHeight 1 = some 8 := by
  refine ⟨by rfl, by rfl, by rfl⟩

/-- Claim C7: the Prev lookup uses Go uint64 subtraction, so a query at
height 0 probes key 18446744073709551615.  A block at that height is
accepted by the ingestion code without validation (first conjunct), and
the by-height query at height 0 on the resulting state then reports that
block as Prev, instead of the empty marker the claim requires at height
zero. -/
theorem c7_prev_wraparound :
    acceptCore emptyState blkC7 bC7 [] 9 = some sC7 ∧
    getBlockHeadersByHeightRes sC7 0 100
        = Outcome.ok ⟨0, [⟨9⟩], ⟨9⟩, ⟨0⟩⟩ := by
  refine ⟨by rfl, by rfl⟩

theorem ascendLoop_spec (headers : List (Nat × BlockHeader)) (endB : Int) :
    ∀ (entries : List (Nat × Nat)) (acc : List BlockInfo),
    (∀ p ∈ entries, HeaderMatchB headers p = true) →
    ascendLoop headers endB entries acc
      = some (acc ++ (specScanIncl headers endB entries).1,
          (specScanIncl headers endB entries).2) := by
  intro entries
  induction entries with
  | nil => intro acc h; simp [ascendLoop, specScanIncl]
  | cons p rest ih =>
    intro acc h
    obtain ⟨hk, idv⟩ := p
    have hmatch := h (hk, idv) (List.mem_cons_self _ _)
    unfold HeaderMatchB at hmatch
    cases hget : mapGet headers idv with
    | none => rw [hget] at hmatch; simp at hmatch
    | some blk =>
      rw [hget] at hmatch
      simp only [beq_iff_eq] at hmatch
      have hts : tsOf headers (hk, idv) = blk.Tmstmp := by
        simp [tsOf, hget]
      by_cases hcmp : endB < blk.Tmstmp
      · have hnle : ¬ tsOf headers (hk, idv) ≤ endB := by
          rw [hts]; omega
        simp [ascendLoop, hget, hmatch, hcmp, specScanIncl, hnle]
      · have hle : tsOf headers (hk, idv) ≤ endB := by
          rw [hts]; omega
        have hrest : ∀ q ∈ rest, HeaderMatchB headers q = true :=
          fun q hq => h q (List.mem_cons_of_mem _ hq)
        have hrec := ih (acc ++ [⟨idv⟩]) hrest
        simp [ascendLoop, hget, hmatch, hcmp, specScanIncl, hle, hrec]

/-- Claim C1, amended: the scan still stops at the first visited block
whose timestamp exceeds the end bound and that block still populates
Next, but it is INCLUDED in Blocks rather than excluded: Blocks is the
maximal ascending run of indexed heights at least the start height with
timestamps at most the end bound, extended by that first exceeding
block when one exists.  Stated for any state whose visited entries are
consistent (stored header present and matching the key height), which
every state built by ingestion satisfies. -/
theorem c1_amended_window (s : ServerState) (height : Nat) (endB : Int)
    (hwf : ∀ p ∈ entriesFrom s.idsByHeight height,
      HeaderMatchB s.headers p = true) :
    getBlockHeadersByHeightRes s height endB
      = Outcome.ok ⟨height,
          (specScanIncl s.headers endB (entriesFrom s.idsByHeight height)).1,
          prevInfo s height,
          (specScanIncl s.headers endB (entriesFrom s.idsByHeight height)).2⟩ := by
  unfold getBlockHeadersByHeightRes windowRes
  rw [ascendLoop_spec s.headers endB (entriesFrom s.idsByHeight height) [] hwf]
  simp

/-- Witness for c1_amended_window at the concrete three-block state sW1
(heights 0, 1, 2, timestamps 100, 150, 220), start height 0, end bound
180: the consistency hypothesis is discharged by computation. -/
theorem c1_amended_witness :
    getBlockHeadersByHeightRes sW1 0 180
      = Outcome.ok ⟨0,
          (specScanIncl sW1.headers 180 (entriesFrom sW1.idsByHeight 0)).1,
          prevInfo sW1 0,
          (specScanIncl sW1.headers 180 (entriesFrom sW1.idsByHeight 0)).2⟩ :=
  c1_amended_window sW1 0 180 (by decide)

theorem isErr_windowRes (s : ServerState) (firstBlock : Nat) (endB : Int) :
    isErr (windowRes s firstBlock endB) = false := by
  unfold windowRes
  cases ascendLoop s.headers endB (entriesFrom s.idsByHeight firstBlock) [] with
  | none => rfl
  | some pr => rfl

/-- Claim C8: the by-start-timestamp query derives its start height by
an exact Get on the Time Index, using the found height on a match and
the zero value (genesis) otherwise, and then computes the ordinary
window from that height; it never returns an error for a missing
timestamp. -/
theorem c8_start_timestamp_lookup (s : ServerState) (start endB : Int) :
    getBlockHeadersByStartRes s start endB
        = windowRes s ((mapGet s.blocks start).getD 0) endB
    ∧ isErr (getBlockHeadersByStartRes s start endB) = false := by
  have h1 : getBlockHeadersByStartRes s start endB
      = windowRes s ((mapGet s.blocks start).getD 0) endB := by
    unfold getBlockHeadersByStartRes
    cases mapGet s.blocks start with
    | none => rfl
    | some h => rfl
  exact ⟨h1, by rw [h1]; exact isErr_windowRes s _ endB⟩

theorem acceptCore_eq (s : ServerState) (blk : StatelessBlock)
    (block : BlockHeader) (results : List TxResult) (idv : Nat)
    (s2 : ServerState) (h : acceptCore s blk block results idv = some s2) :
    ∃ seqTxs, buildSeqTxs results 0 blk.Txs [] = some seqTxs ∧
      s2 = { headers := mapSet s.headers idv block,
             blocksWithValidTxs := mapSet s.blocksWithValidTxs idv
               ⟨blk.StateRoot, blk.Prnt, blk.Tmstmp, blk.Hght, seqTxs⟩,
             idsByHeight := mapSet s.idsByHeight block.Hght idv,
             blocks := mapSet s.blocks block.Tmstmp block.Hght } := by
  unfold acceptCore at h
  cases hb : buildSeqTxs results 0 blk.Txs [] with
  | none => rw [hb] at h; simp at h
  | some st =>
    rw [hb] at h
    simp only [Option.some.injEq] at h
    exact ⟨st, rfl, h.symm⟩

theorem drop_succ_of_get {α : Type} :
    ∀ (l : List α) (i : Nat) (a : α), l[i]? = some a →
      l.drop i = a :: l.drop (i + 1) := by
  intro l
  induction l with
  | nil => intro i a h; simp at h
  | cons x xs ih =>
    intro i a h
    cases i with
    | zero =>
      simp only [List.getElem?_cons_zero, Option.some.injEq] at h
      subst h
      rfl
    | succ n =>
      have hx := ih n a (by simpa using h)
      simp only [List.drop_succ_cons]
      exact hx

theorem buildSeqTxs_lookup (results : List TxResult) :
    ∀ (txs : List Tx) (i : Nat) (acc m : List (String × List SEQTransaction)),
    buildSeqTxs results i txs acc = some m →
    ∀ ns, nsLookup m ns = nsLookup acc ns ++ specFrom results i txs ns := by
  intro txs
  induction txs with
  | nil =>
    intro i acc m h ns
    simp only [buildSeqTxs, Option.some.injEq] at h
    subst h
    simp [specFrom]
  | cons tx rest ih =>
    intro i acc m h ns
    cases hres : results[i]? with
    | none => simp [buildSeqTxs, hres] at h
    | some r =>
      simp only [buildSeqTxs, hres] at h
      cases hsuc : r.success with
      | false =>
        rw [hsuc] at h
        simp only [Bool.false_eq_true, if_false] at h
        have := ih (i + 1) acc m h ns
        simp [specFrom, hres, hsuc, this]
      | true =>
        rw [hsuc] at h
        simp only [if_true] at h
        cases hact : tx.Action with
        | other =>
          rw [hact] at h
          have := ih (i + 1) acc m h ns
          simp [specFrom, hres, hsuc, hact, this]
        | sequencerMsg cid dat =>
          rw [hact] at h
          have hm := ih (i + 1)
            (addSeqTx acc (hexEncodeToString cid)
              ⟨hexEncodeToString cid, tx.id, dat, i⟩) m h ns
          rw [nsLookup_addSeqTx] at hm
          by_cases hns : hexEncodeToString cid = ns
          · subst hns
            simp only [if_pos rfl] at hm
            simp [specFrom, hres, hsuc, hact, hm, List.append_assoc]
          · rw [if_neg hns] at hm
            simp [specFrom, hres, hsuc, hact, hns, hm]

theorem buildSeqTxs_covers (results : List TxResult) :
    ∀ (txs : List Tx) (i : Nat) (acc m : List (String × List SEQTransaction)),
    buildSeqTxs results i txs acc = some m →
    ∀ k, k < txs.length → (results[i + k]?).isSome = true := by
  intro txs
  induction txs with
  | nil => intro i acc m h k hk; simp at hk
  | cons tx rest ih =>
    intro i acc m h k hk
    cases hres : results[i]? with
    | none => simp [buildSeqTxs, hres] at h
    | some r =>
      simp only [buildSeqTxs, hres] at h
      cases k with
      | zero => simp [hres]
      | succ n =>
        have hn : n < rest.length := by simpa using Nat.lt_of_succ_lt_succ hk
        have he : i + (n + 1) = (i + 1) + n := by omega
        rw [he]
        cases hsuc : r.success with
        | false =>
          rw [hsuc] at h
          simp only [Bool.false_eq_true, if_false] at h
          exact ih (i + 1) acc m h n hn
        | true =>
          rw [hsuc] at h
          simp only [if_true] at h
          cases hact : tx.Action with
          | other =>
            rw [hact] at h
            exact ih (i + 1) acc m h n hn
          | sequencerMsg cid dat =>
            rw [hact] at h
            exact ih (i + 1) _ m h n hn

theorem specFrom_enumFrom (results : List TxResult) :
    ∀ (txs : List Tx) (i : Nat),
    (∀ k, k < txs.length → (results[i + k]?).isSome = true) →
    ∀ ns, specFrom results i txs ns
      = (List.enumFrom i (txs.zip (results.drop i))).filterMap (specSel ns) := by
  intro txs
  induction txs with
  | nil => intro i hcov ns; simp [specFrom]
  | cons tx rest ih =>
    intro i hcov ns
    have h0 : (results[i]?).isSome = true := by
      have := hcov 0 (by simp)
      simpa using this
    obtain ⟨r, hr⟩ := Option.isSome_iff_exists.mp h0
    have hdrop := drop_succ_of_get results i r hr
    rw [hdrop]
    have ihx := ih (i + 1) (fun k hk => by
      have hx := hcov (k + 1) (by simpa using Nat.succ_lt_succ hk)
      have he : i + (k + 1) = (i + 1) + k := by omega
      rw [he] at hx
      exact hx) ns
    simp only [List.zip_cons_cons, List.enumFrom, List.filterMap_cons]
    cases hsuc : r.success with
    | false =>
      simp [specFrom, hr, hsuc, specSel, ihx, List.zip]
    | true =>
      cases hact : tx.Action with
      | other =>
        simp [specFrom, hr, hsuc, hact, specSel, ihx, List.zip]
      | sequencerMsg cid dat =>
        by_cases hns : hexEncodeToString cid = ns
        · simp [specFrom, hr, hsuc, hact, specSel, hns, ihx, List.zip]
        · simp [specFrom, hr, hsuc, hact, specSel, hns, ihx, List.zip]

/-- Claim C6: whenever AcceptBlock commits a block, the stored namespace
partition holds, for every namespace, exactly the records of the
transactions of the block whose execution succeeded and whose action is
the sequencer-message kind with that namespace as the hex encoding of
its channel id, each record carrying the transaction id, the payload and
the original position, in original block order; all other transactions
appear in no namespace list. -/
theorem c6_namespace_partition (s : ServerState) (blk : StatelessBlock)
    (block : BlockHeader) (results : List TxResult) (idv : Nat)
    (s2 : ServerState) (hA : acceptCore s blk block results idv = some s2) :
    ∃ sb, mapGet s2.blocksWithValidTxs idv = some sb ∧
      ∀ ns, nsLookup sb.Txs ns = specNsRecords blk.Txs results ns := by
  obtain ⟨seqTxs, hbuild, hs2⟩ := acceptCore_eq s blk block results idv s2 hA
  refine ⟨⟨blk.StateRoot, blk.Prnt, blk.Tmstmp, blk.Hght, seqTxs⟩, ?_, ?_⟩
  · rw [hs2]
    exact mapGet_mapSet_self _ _ _
  · intro ns
    have h1 := buildSeqTxs_lookup results blk.Txs 0 [] seqTxs hbuild ns
    have h2 := specFrom_enumFrom results blk.Txs 0
      (buildSeqTxs_covers results blk.Txs 0 [] seqTxs hbuild) ns
    have h3 : nsLookup [] ns = [] := by simp [nsLookup, mapGet]
    rw [h3, List.nil_append] at h1
    simp only [SequencerBlock.mk.injEq] at h1 ⊢
    rw [h1, h2]
    simp [specNsRecords, List.enum]

/-- Witness for c6_namespace_partition: ingesting the concrete block
blkC6 (two successful sequencer messages on channel 0a, one successful
and one failed on 0b, one plain transaction) from the empty state stores
the partition sbC6, whose 0a list equals the claimed records. -/
theorem c6_witness :
    nsLookup sbC6.Txs "0a" = specNsRecords blkC6.Txs resC6 "0a" := by
  obtain ⟨sb, hsb, hns⟩ :=
    c6_namespace_partition emptyState blkC6 bC6 resC6 12 sC6 (by rfl)
  have h2 : mapGet sC6.blocksWithValidTxs 12 = some sbC6 := by rfl
  have h3 : sbC6 = sb := Option.some.inj (h2.symm.trans hsb)
  rw [h3]
  exact hns "0a"

theorem emptyState_headerTotal : HeaderTotal emptyState := by
  intro hgt idv h
  simp [emptyState, mapGet] at h

theorem acceptCore_headerTotal (s : ServerState) (blk : StatelessBlock)
    (block : BlockHeader) (results : List TxResult) (idv : Nat)
    (s2 : ServerState) (h : acceptCore s blk block results idv = some s2)
    (ht : HeaderTotal s) : HeaderTotal s2 := by
  obtain ⟨seqTxs, hbuild, hs2⟩ := acceptCore_eq s blk block results idv s2 h
  subst hs2
  intro hgt idv2 hget
  simp only at hget
  by_cases hcase : hgt = block.Hght
  · subst hcase
    rw [mapGet_mapSet_self] at hget
    cases hget
    rw [mapGet_mapSet_self]
    rfl
  · rw [mapGet_mapSet_ne s.idsByHeight block.Hght hgt idv hcase] at hget
    by_cases hid : idv2 = idv
    · subst hid
      rw [mapGet_mapSet_self]
      rfl
    · simp only
      rw [mapGet_mapSet_ne s.headers idv idv2 block hid]
      exact ht hgt idv2 hget

theorem AcceptBlock_headerTotal (s : ServerState) (blk : StatelessBlock)
    (packOut : Except Nat Nat) (unpack : Nat → UnpackOut) (s2 : ServerState)
    (h : AcceptBlock s blk packOut unpack = AcceptOutcome.ok s2)
    (ht : HeaderTotal s) : HeaderTotal s2 := by
  unfold AcceptBlock at h
  cases packOut with
  | error e => simp at h
  | ok msg =>
    simp only at h
    cases hid : (unpack msg).idOut with
    | none => rw [hid] at h; simp at h
    | some idv =>
      rw [hid] at h
      simp only at h
      cases hc : acceptCore s blk (unpack msg).block (unpack msg).results idv with
      | none => rw [hc] at h; simp at h
      | some s3 =>
        rw [hc] at h
        simp only [AcceptOutcome.ok.injEq] at h
        subst h
        exact acceptCore_headerTotal s blk (unpack msg).block
          (unpack msg).results idv s3 hc ht

theorem ingestAll_headerTotal :
    ∀ (calls : List IngestCall) (s0 s : ServerState),
    HeaderTotal s0 → ingestAll s0 calls = some s → HeaderTotal s := by
  intro calls
  induction calls with
  | nil =>
    intro s0 s h0 h
    simp only [ingestAll, Option.some.injEq] at h
    subst h
    exact h0
  | cons c rest ih =>
    intro s0 s h0 h
    unfold ingestAll at h
    cases hA : AcceptBlock s0 c.blk c.packOut c.unpack with
    | ok s1 =>
      rw [hA] at h
      exact ih s1 s
        (AcceptBlock_headerTotal s0 c.blk c.packOut c.unpack s1 hA h0) h
    | panic => rw [hA] at h; simp at h
    | err e => rw [hA] at h; simp at h

/-- Claim C9: after any sequence of AcceptBlock calls that all return
normally, starting from the empty server state, every block id the
Height Index holds has a stored header, so the two-step lookup from
height through id to header is total on indexed heights. -/
theorem c9_height_index_headers_total (calls : List IngestCall)
    (s : ServerState) (h : ingestAll emptyState calls = some s)
    (hgt idv : Nat) (hget : mapGet s.idsByHeight hgt = some idv) :
    (mapGet s.headers idv).isSome = true :=
  ingestAll_headerTotal calls emptyState s emptyState_headerTotal h hgt idv hget

/-- Witness for c9_height_index_headers_total: the single ingestion call
callW9 (block at height 3, id 21) yields sW9, whose height index maps 3
to 21 and whose header store then holds id 21. -/
theorem c9_witness : (mapGet sW9.headers 21).isSome = true :=
  c9_height_index_headers_total [callW9] sW9 (by rfl) 3 21 (by rfl)

/-- Claim C10: btree Set overwrites, so when a second block is ingested
with the same timestamp as an earlier one, the Time Index afterwards maps
that timestamp to the later block height, and a by-start-timestamp query
for the shared timestamp runs the window from the later height.  The
earlier (timestamp, height) entry is gone: the single-valued index
retains only the later one. -/
theorem c10_time_index_overwrite (s s1 s2 : ServerState)
    (blk1 blk2 : StatelessBlock) (b1 b2 : BlockHeader)
    (r1 r2 : List TxResult) (id1 id2 : Nat) (endB : Int)
    (_h1 : acceptCore s blk1 b1 r1 id1 = some s1)
    (h2 : acceptCore s1 blk2 b2 r2 id2 = some s2)
    (ht : b2.Tmstmp = b1.Tmstmp) :
    mapGet s2.blocks b1.Tmstmp = some b2.Hght ∧
    getBlockHeadersByStartRes s2 b1.Tmstmp endB = windowRes s2 b2.Hght endB := by
  obtain ⟨st2, hb2, hs2⟩ := acceptCore_eq s1 blk2 b2 r2 id2 s2 h2
  have hmap : mapGet s2.blocks b1.Tmstmp = some b2.Hght := by
    rw [hs2]
    simp only
    rw [← ht]
    exact mapGet_mapSet_self s1.blocks b2.Tmstmp b2.Hght
  refine ⟨hmap, ?_⟩
  unfold getBlockHeadersByStartRes
  rw [hmap]

/-- Witness for c10_time_index_overwrite: blocks bC10a (height 1, id 41)
and bC10b (height 2, id 42) share timestamp 40; after both ingestions
the time index maps 40 to height 2 and the by-start query at 40 scans
from height 2. -/
theorem c10_witness :
    mapGet sC10b.blocks 40 = some 2 ∧
    getBlockHeadersByStartRes sC10b 40 77 = windowRes sC10b 2 77 :=
  c10_time_index_overwrite emptyState sC10a sC10b blkC10a blkC10b
    bC10a bC10b [] [] 41 42 77 (by rfl) (by rfl) (by rfl)

end NodekitSeq
